import Mathlib

/-!
Shallow embedding of the `password` Go package (`password/generate.go`).

Strings are modelled as `List Char` (all alphabets in play are ASCII, so a
Go byte index into a string and a character index agree).  The
cryptographically secure random source (`io.Reader` consumed through
`rand.Int`) is modelled as a finite list of raw natural draws, consumed
head-first: each call to Go's `rand.Int(reader, n)` takes one raw value `d`
and yields the in-range value `d % n`.  Every value in `[0, n)` is reachable,
so quantifying over draw lists quantifies over all possible random outcomes.
Running out of draws is `Option.none`: the Go call has not returned yet.
Go's `(string, error)` return pair is modelled as
`List Char × Option GenErr`, paired with the unconsumed rest of the draws.
-/

namespace Password

/-- Generation errors (Go: `ErrExceedsTotalLength`, `ErrLettersExceedsAvailable`,
`ErrDigitsExceedsAvailable`, `ErrSymbolsExceedsAvailable`). -/
inductive GenErr where
  | exceedsTotalLength
  | lettersExceedsAvailable
  | digitsExceedsAvailable
  | symbolsExceedsAvailable
deriving DecidableEq, Repr

/-- Go constant `LowerLetters = "abcdefghijklmnopqrstuvwxyz"`. -/
def LowerLetters : List Char := "abcdefghijklmnopqrstuvwxyz".toList

/-- Go constant `UpperLetters = "ABCDEFGHIJKLMNOPQRSTUVWXYZ"`. -/
def UpperLetters : List Char := "ABCDEFGHIJKLMNOPQRSTUVWXYZ".toList

/-- Go constant `Digits = "0123456789"`. -/
def Digits : List Char := "0123456789".toList

/-- Go constant `Symbols`, the Go string literal
`"~!@#$%^&*()_+`+"`"+`-={}|[]\\:\"<>?,./"` spelled out character by
character. -/
def Symbols : List Char :=
  ['~', '!', '@', '#', '$', '%', '^', '&', '*', '(', ')', '_', '+', '\x60',
   '-', '=', '\x7b', '\x7d', '|', '[', ']', '\\', ':', '\"', '<', '>', '?',
   ',', '.', '/']

/-- Go struct `StatefulGenerator` (the `reader` field is modelled separately
as the draw list passed to each call). -/
structure StatefulGenerator where
  lowerLetters : List Char
  upperLetters : List Char
  digits : List Char
  symbols : List Char
deriving DecidableEq, Repr

/-- Go struct `GeneratorInput` (again without the `reader` field). -/
structure GeneratorInput where
  lowerLetters : List Char
  upperLetters : List Char
  digits : List Char
  symbols : List Char

/-- Go `NewStatefulGenerator`: each empty alphabet override falls back to the
built-in default; construction never fails (Go returns a nil error). -/
def newStatefulGenerator (i : Option GeneratorInput) : StatefulGenerator :=
  let i := i.getD ⟨[], [], [], []⟩
  { lowerLetters := if i.lowerLetters = [] then LowerLetters else i.lowerLetters
    upperLetters := if i.upperLetters = [] then UpperLetters else i.upperLetters
    digits := if i.digits = [] then Digits else i.digits
    symbols := if i.symbols = [] then Symbols else i.symbols }

/-- One draw of Go's `rand.Int(reader, n)`: a uniform value in `[0, n)`,
consuming one raw value from the draw list.  Faithful to Go only for `n > 0`
(Go's `rand.Int` rejects `n ≤ 0`); every use below has `n > 0`. -/
def randInt (n : Nat) : List Nat → Option (Nat × List Nat)
  | [] => none
  | d :: rest => some (d % n, rest)

/-- Go `randomElement(reader, s)`: `s[rand.Int(reader, len(s))]`. -/
def randomElement (s : List Char) (draws : List Nat) : Option (Char × List Nat) :=
  match randInt s.length draws with
  | none => none
  | some (n, rest) => some (s.getD n 'a', rest)

/-- Go `randomInsert(reader, s, val)`: returns `val` unchanged when `s` is
empty (consuming no randomness), otherwise draws `i` in `[0, len(s)+1)` and
returns `s[0:i] + val + s[i:]`. -/
def randomInsert (s : List Char) (val : Char) (draws : List Nat) :
    Option (List Char × List Nat) :=
  if s = [] then some ([val], draws)
  else
    match randInt (s.length + 1) draws with
    | none => none
    | some (i, rest) => some (s.take i ++ val :: s.drop i, rest)

/-- One character-class phase of `StatefulGenerator.Generate`: the Go loop
`for i := 0; i < n; i++` that draws `randomElement` from `alphabet`, retries
the same iteration (`i--; continue`) when `!allowRepeat` and the drawn
character is already contained in the result, and otherwise `randomInsert`s
it.  `none` when the draw list runs out mid-loop.  `fuel` bounds the number
of loop iterations modelled; since every iteration consumes at least one
draw, `fuel := draws.length` (as used by `generate`) never cuts a run short
that the draw list could finish. -/
def fill (allowRepeat : Bool) (alphabet : List Char) :
    Nat → Nat → List Char → List Nat → Option (List Char × List Nat)
  | _, 0, result, draws => some (result, draws)
  | 0, _ + 1, _, _ => none
  | fuel + 1, n + 1, result, draws =>
    match randomElement alphabet draws with
    | none => none
    | some (ch, rest) =>
      if ¬allowRepeat ∧ ch ∈ result then
        fill allowRepeat alphabet fuel (n + 1) result rest
      else
        match randomInsert result ch rest with
        | none => none
        | some (result', rest') => fill allowRepeat alphabet fuel n result' rest'

/-- Go `StatefulGenerator.Generate`.  Returns the `(string, error)` pair plus
the unconsumed draws; `none` means the draw list was too short for the call
to return.  The argument arithmetic (`chars := length - numDigits -
numSymbols`) is modelled with exact integers; Go computes it in 64-bit
wrapping `int`, so this definition agrees with the program exactly on the
inputs where that subtraction chain stays inside int64 range (every theorem
below whose hypotheses pin `length - numDigits - numSymbols` into
`[0, len(letters)]` or similar lives in that region).  `generate64` below is
the same function with Go's wrapping arithmetic; `generate64_eq_generate`
connects the two. -/
def StatefulGenerator.generate (g : StatefulGenerator)
    (length numDigits numSymbols : Int) (includeUpper allowRepeat : Bool)
    (draws : List Nat) : Option (List Char × Option GenErr × List Nat) :=
  let letters := g.lowerLetters ++ (if includeUpper then g.upperLetters else [])
  let chars := length - numDigits - numSymbols
  if chars < 0 then
    some ([], some .exceedsTotalLength, draws)
  else if ¬allowRepeat ∧ chars > (letters.length : Int) then
    some ([], some .lettersExceedsAvailable, draws)
  else if ¬allowRepeat ∧ numDigits > (g.digits.length : Int) then
    some ([], some .digitsExceedsAvailable, draws)
  else if ¬allowRepeat ∧ numSymbols > (g.symbols.length : Int) then
    some ([], some .symbolsExceedsAvailable, draws)
  else
    match fill allowRepeat letters draws.length chars.toNat [] draws with
    | none => none
    | some (r1, d1) =>
      match fill allowRepeat g.digits d1.length numDigits.toNat r1 d1 with
      | none => none
      | some (r2, d2) =>
        match fill allowRepeat g.symbols d2.length numSymbols.toNat r2 d2 with
        | none => none
        | some (r3, d3) => some (r3, none, d3)

/-- Go `containsLower` (regex `.*[[:lower:]].*`). -/
def containsLower (s : List Char) : Bool :=
  s.any fun c => 'a' ≤ c && c ≤ 'z'

/-- Go `containsUpper` (regex `.*[[:upper:]].*`). -/
def containsUpper (s : List Char) : Bool :=
  s.any fun c => 'A' ≤ c && c ≤ 'Z'

/-- Go `containsDigit` (regex `.*[[:digit:]].*`). -/
def containsDigit (s : List Char) : Bool :=
  s.any fun c => '0' ≤ c && c ≤ '9'

/-- Go `containsSymbol` (regex `[^a-zA-Z0-9]+`): some character outside
`[A-Za-z0-9]`, independent of the configured symbol alphabet. -/
def containsSymbol (s : List Char) : Bool :=
  s.any fun c =>
    !(('a' ≤ c && c ≤ 'z') || ('A' ≤ c && c ≤ 'Z') || ('0' ≤ c && c ≤ '9'))

/-- Go `isLegalPassword`. -/
def isLegalPassword (p : List Char)
    (needsLower needsUpper needsDigit needsSymbol : Bool) : Bool :=
  if needsLower && !containsLower p then false
  else if needsUpper && !containsUpper p then false
  else if needsDigit && !containsDigit p then false
  else if needsSymbol && !containsSymbol p then false
  else true

/-- Go `StatefulGenerator.GenerateWithPolicy`: regenerate until
`isLegalPassword` holds, propagating generation errors immediately.  The Go
loop is unbounded; `fuel` bounds the number of attempts modelled, with `none`
for fuel (or draw) exhaustion. -/
def StatefulGenerator.generateWithPolicy (g : StatefulGenerator) (fuel : Nat)
    (length numDigits numSymbols : Int)
    (includeUpper allowRepeat needsLower needsUpper needsDigit needsSymbol : Bool)
    (draws : List Nat) : Option (List Char × Option GenErr × List Nat) :=
  match fuel with
  | 0 => none
  | fuel + 1 =>
    match g.generate length numDigits numSymbols includeUpper allowRepeat draws with
    | none => none
    | some (_, some e, rest) => some ([], some e, rest)
    | some (result, none, rest) =>
      if isLegalPassword result needsLower needsUpper needsDigit needsSymbol then
        some (result, none, rest)
      else
        g.generateWithPolicy fuel length numDigits numSymbols includeUpper
          allowRepeat needsLower needsUpper needsDigit needsSymbol rest

/-- Go package-level `Generate`: `NewStatefulGenerator(nil)` then `Generate`. -/
def Generate (length numDigits numSymbols : Int) (includeUpper allowRepeat : Bool)
    (draws : List Nat) : Option (List Char × Option GenErr × List Nat) :=
  (newStatefulGenerator none).generate length numDigits numSymbols includeUpper
    allowRepeat draws

/-- Go package-level `GenerateWithPolicy`. -/
def GenerateWithPolicy (fuel : Nat) (length numDigits numSymbols : Int)
    (includeUpper allowRepeat needsLower needsUpper needsDigit needsSymbol : Bool)
    (draws : List Nat) : Option (List Char × Option GenErr × List Nat) :=
  (newStatefulGenerator none).generateWithPolicy fuel length numDigits numSymbols
    includeUpper allowRepeat needsLower needsUpper needsDigit needsSymbol draws

/-- Two's-complement wraparound to 64-bit signed range, the semantics of
overflowing arithmetic on Go's `int` (64-bit): maps any integer to its
representative in `[-2^63, 2^63)` modulo `2^64`. -/
def wrap64 (x : Int) : Int := (x + 2 ^ 63) % 2 ^ 64 - 2 ^ 63

/-- Go `StatefulGenerator.Generate` with the argument arithmetic performed
exactly as the program does it: `chars := length - numDigits - numSymbols`
is two subtractions on Go's wrapping 64-bit `int`.  For parameters in int64
range this is the faithful model of the Go function; it differs from
`generate` only in the `chars` computation (`generate64_eq_generate`,
`generate64_shift`).  All other operations on the arguments (comparisons and
loop bounds) involve no arithmetic and cannot overflow. -/
def StatefulGenerator.generate64 (g : StatefulGenerator)
    (length numDigits numSymbols : Int) (includeUpper allowRepeat : Bool)
    (draws : List Nat) : Option (List Char × Option GenErr × List Nat) :=
  let letters := g.lowerLetters ++ (if includeUpper then g.upperLetters else [])
  let chars := wrap64 (wrap64 (length - numDigits) - numSymbols)
  if chars < 0 then
    some ([], some .exceedsTotalLength, draws)
  else if ¬allowRepeat ∧ chars > (letters.length : Int) then
    some ([], some .lettersExceedsAvailable, draws)
  else if ¬allowRepeat ∧ numDigits > (g.digits.length : Int) then
    some ([], some .digitsExceedsAvailable, draws)
  else if ¬allowRepeat ∧ numSymbols > (g.symbols.length : Int) then
    some ([], some .symbolsExceedsAvailable, draws)
  else
    match fill allowRepeat letters draws.length chars.toNat [] draws with
    | none => none
    | some (r1, d1) =>
      match fill allowRepeat g.digits d1.length numDigits.toNat r1 d1 with
      | none => none
      | some (r2, d2) =>
        match fill allowRepeat g.symbols d2.length numSymbols.toNat r2 d2 with
        | none => none
        | some (r3, d3) => some (r3, none, d3)

/-- Go package-level `Generate` with the wrapping `int` arithmetic of
`generate64`. -/
def Generate64 (length numDigits numSymbols : Int) (includeUpper allowRepeat : Bool)
    (draws : List Nat) : Option (List Char × Option GenErr × List Nat) :=
  (newStatefulGenerator none).generate64 length numDigits numSymbols includeUpper
    allowRepeat draws

/-- Shorthand for the generator built by the package-level functions:
`NewStatefulGenerator(nil)`, i.e. all built-in default alphabets. -/
def defaultGenerator : StatefulGenerator := newStatefulGenerator none

/-! ### Basic facts about the sampling primitives -/

theorem randomElement_eq {s : List Char} {draws : List Nat} {c : Char}
    {rest : List Nat} (h : randomElement s draws = some (c, rest)) :
    ∃ d, draws = d :: rest ∧ c = s.getD (d % s.length) 'a' := by
  cases draws with
  | nil => simp [randomElement, randInt] at h
  | cons d ds =>
    simp only [randomElement, randInt] at h
    obtain ⟨h1, h2⟩ := Prod.mk.injEq .. ▸ Option.some.injEq .. ▸ h
    exact ⟨d, by rw [h2], h1.symm⟩

theorem randomElement_mem {s : List Char} (hs : s ≠ []) {draws : List Nat}
    {c : Char} {rest : List Nat} (h : randomElement s draws = some (c, rest)) :
    c ∈ s := by
  obtain ⟨d, -, rfl⟩ := randomElement_eq h
  have hlt : d % s.length < s.length := Nat.mod_lt _ (List.length_pos.mpr hs)
  rw [List.getD_eq_getElem?_getD, List.getElem?_eq_getElem hlt]
  exact List.getElem_mem hlt

theorem randomInsert_eq {s : List Char} {val : Char} {draws : List Nat}
    {r : List Char} {rest : List Nat}
    (h : randomInsert s val draws = some (r, rest)) :
    ∃ i, i ≤ s.length ∧ r = s.take i ++ val :: s.drop i := by
  unfold randomInsert randInt at h
  by_cases hs : s = []
  · rw [if_pos hs] at h
    obtain ⟨h1, -⟩ := Prod.mk.injEq .. ▸ Option.some.injEq .. ▸ h
    exact ⟨0, by simp, by simp [hs, ← h1]⟩
  · rw [if_neg hs] at h
    cases draws with
    | nil => simp at h
    | cons d ds =>
      simp only [] at h
      obtain ⟨h1, -⟩ := Prod.mk.injEq .. ▸ Option.some.injEq .. ▸ h
      exact ⟨d % (s.length + 1),
        Nat.le_of_lt_succ (Nat.mod_lt _ (Nat.succ_pos _)), h1.symm⟩

theorem length_insert_slice {s : List Char} {c : Char} {i : Nat}
    (hi : i ≤ s.length) : (s.take i ++ c :: s.drop i).length = s.length + 1 := by
  simp only [List.length_append, List.length_cons, List.length_take,
    List.length_drop]
  omega

theorem mem_insert_slice {s : List Char} {c x : Char} {i : Nat} :
    x ∈ s.take i ++ c :: s.drop i ↔ x = c ∨ x ∈ s := by
  rw [List.mem_append, List.mem_cons, or_left_comm, ← List.mem_append,
    List.take_append_drop]

theorem nodup_insert_slice {s : List Char} {c : Char} {i : Nat} (hc : c ∉ s)
    (hs : s.Nodup) : (s.take i ++ c :: s.drop i).Nodup := by
  rw [List.nodup_middle, List.take_append_drop]
  exact List.nodup_cons.mpr ⟨hc, hs⟩

/-! ### Invariants of the per-class filling loop -/

theorem fill_length {ar : Bool} {a : List Char} :
    ∀ {fuel n : Nat} {result : List Char} {draws : List Nat} {r : List Char}
      {rest : List Nat}, fill ar a fuel n result draws = some (r, rest) →
      r.length = result.length + n := by
  intro fuel
  induction fuel with
  | zero =>
    intro n result draws r rest h
    cases n with
    | zero =>
      simp only [fill, Option.some.injEq, Prod.mk.injEq] at h
      simp [← h.1]
    | succ n => simp [fill] at h
  | succ fuel ih =>
    intro n result draws r rest h
    cases n with
    | zero =>
      simp only [fill, Option.some.injEq, Prod.mk.injEq] at h
      simp [← h.1]
    | succ n =>
      rw [fill] at h
      cases hre : randomElement a draws with
      | none => rw [hre] at h; cases h
      | some cr =>
        obtain ⟨ch, rest₁⟩ := cr
        rw [hre] at h
        simp only [] at h
        split at h
        · exact ih h
        · cases hri : randomInsert result ch rest₁ with
          | none => rw [hri] at h; cases h
          | some rr =>
            obtain ⟨result', rest'⟩ := rr
            rw [hri] at h
            obtain ⟨i, hi, hr⟩ := randomInsert_eq hri
            have := ih h
            rw [this, hr, length_insert_slice hi]
            omega

theorem fill_mem {ar : Bool} {a : List Char} (ha : a ≠ []) :
    ∀ {fuel n : Nat} {result : List Char} {draws : List Nat} {r : List Char}
      {rest : List Nat}, fill ar a fuel n result draws = some (r, rest) →
      ∀ x ∈ r, x ∈ result ∨ x ∈ a := by
  intro fuel
  induction fuel with
  | zero =>
    intro n result draws r rest h
    cases n with
    | zero =>
      simp only [fill, Option.some.injEq, Prod.mk.injEq] at h
      rw [← h.1]
      exact fun x hx => Or.inl hx
    | succ n => simp [fill] at h
  | succ fuel ih =>
    intro n result draws r rest h
    cases n with
    | zero =>
      simp only [fill, Option.some.injEq, Prod.mk.injEq] at h
      rw [← h.1]
      exact fun x hx => Or.inl hx
    | succ n =>
      rw [fill] at h
      cases hre : randomElement a draws with
      | none => rw [hre] at h; cases h
      | some cr =>
        obtain ⟨ch, rest₁⟩ := cr
        rw [hre] at h
        simp only [] at h
        have hch : ch ∈ a := randomElement_mem ha hre
        split at h
        · exact ih h
        · cases hri : randomInsert result ch rest₁ with
          | none => rw [hri] at h; cases h
          | some rr =>
            obtain ⟨result', rest'⟩ := rr
            rw [hri] at h
            obtain ⟨i, hi, hr⟩ := randomInsert_eq hri
            intro x hx
            rcases ih h x hx with hx' | hx'
            · rw [hr] at hx'
              rcases mem_insert_slice.mp hx' with rfl | hx''
              · exact Or.inr hch
              · exact Or.inl hx''
            · exact Or.inr hx'

theorem fill_nodup {a : List Char} :
    ∀ {fuel n : Nat} {result : List Char} {draws : List Nat} {r : List Char}
      {rest : List Nat}, fill false a fuel n result draws = some (r, rest) →
      result.Nodup → r.Nodup := by
  intro fuel
  induction fuel with
  | zero =>
    intro n result draws r rest h hres
    cases n with
    | zero =>
      simp only [fill, Option.some.injEq, Prod.mk.injEq] at h
      rw [← h.1]; exact hres
    | succ n => simp [fill] at h
  | succ fuel ih =>
    intro n result draws r rest h hres
    cases n with
    | zero =>
      simp only [fill, Option.some.injEq, Prod.mk.injEq] at h
      rw [← h.1]; exact hres
    | succ n =>
      rw [fill] at h
      cases hre : randomElement a draws with
      | none => rw [hre] at h; cases h
      | some cr =>
        obtain ⟨ch, rest₁⟩ := cr
        rw [hre] at h
        simp only [] at h
        split at h
        · exact ih h hres
        · rename_i hcond
          have hch : ch ∉ result := by
            intro hmem
            exact hcond ⟨by simp, hmem⟩
          cases hri : randomInsert result ch rest₁ with
          | none => rw [hri] at h; cases h
          | some rr =>
            obtain ⟨result', rest'⟩ := rr
            rw [hri] at h
            obtain ⟨i, hi, hr⟩ := randomInsert_eq hri
            exact ih h (hr ▸ nodup_insert_slice hch hres)

/-! ### Case analysis of `generate` -/

theorem generate_ok_fills {g : StatefulGenerator}
    {length numDigits numSymbols : Int} {includeUpper allowRepeat : Bool}
    {draws rest : List Nat} {s : List Char}
    (h : g.generate length numDigits numSymbols includeUpper allowRepeat draws =
      some (s, none, rest)) :
    ∃ r1 d1 r2 d2,
      fill allowRepeat (g.lowerLetters ++ if includeUpper then g.upperLetters else [])
        draws.length (length - numDigits - numSymbols).toNat [] draws = some (r1, d1) ∧
      fill allowRepeat g.digits d1.length numDigits.toNat r1 d1 = some (r2, d2) ∧
      fill allowRepeat g.symbols d2.length numSymbols.toNat r2 d2 = some (s, rest) := by
  unfold StatefulGenerator.generate at h
  dsimp only at h
  generalize hU : (if includeUpper = true then g.upperLetters else ([] : List Char)) = U at h ⊢
  split at h
  · simp at h
  split at h
  · simp at h
  split at h
  · simp at h
  split at h
  · simp at h
  cases heq1 : fill allowRepeat (g.lowerLetters ++ U)
      draws.length (length - numDigits - numSymbols).toNat [] draws with
  | none => rw [heq1] at h; simp at h
  | some p1 =>
    obtain ⟨r1, d1⟩ := p1
    rw [heq1] at h
    dsimp only at h
    cases heq2 : fill allowRepeat g.digits d1.length numDigits.toNat r1 d1 with
    | none => rw [heq2] at h; simp at h
    | some p2 =>
      obtain ⟨r2, d2⟩ := p2
      rw [heq2] at h
      dsimp only at h
      cases heq3 : fill allowRepeat g.symbols d2.length numSymbols.toNat r2 d2 with
      | none => rw [heq3] at h; simp at h
      | some p3 =>
        obtain ⟨r3, d3⟩ := p3
        rw [heq3] at h
        simp only [Option.some.injEq, Prod.mk.injEq] at h
        obtain ⟨hs, -, hrest⟩ := h
        exact ⟨r1, d1, r2, d2, rfl, heq2, by rw [← hs, ← hrest]; exact heq3⟩

theorem generate_error_elim {g : StatefulGenerator}
    {length numDigits numSymbols : Int} {includeUpper allowRepeat : Bool}
    {draws rest : List Nat} {s : List Char} {e : GenErr}
    (h : g.generate length numDigits numSymbols includeUpper allowRepeat draws =
      some (s, some e, rest)) :
    s = [] ∧ rest = draws ∧
      (e = .exceedsTotalLength → numDigits + numSymbols > length) ∧
      (e = .lettersExceedsAvailable → allowRepeat = false ∧
        length - numDigits - numSymbols >
          ((g.lowerLetters ++ if includeUpper then g.upperLetters else []).length : Int)) ∧
      (e = .digitsExceedsAvailable → allowRepeat = false ∧
        numDigits > (g.digits.length : Int)) ∧
      (e = .symbolsExceedsAvailable → allowRepeat = false ∧
        numSymbols > (g.symbols.length : Int)) := by
  unfold StatefulGenerator.generate at h
  dsimp only at h
  generalize hU : (if includeUpper = true then g.upperLetters else ([] : List Char)) = U at h ⊢
  split at h
  · rename_i hc
    simp only [Option.some.injEq, Prod.mk.injEq] at h
    obtain ⟨hs, he, hrest⟩ := h
    subst hs; subst he; subst hrest
    refine ⟨rfl, rfl, fun _ => by omega, ?_, ?_, ?_⟩ <;> (intro hee; cases hee)
  split at h
  · rename_i hc
    obtain ⟨har, hgt⟩ := hc
    simp only [Option.some.injEq, Prod.mk.injEq] at h
    obtain ⟨hs, he, hrest⟩ := h
    subst hs; subst he; subst hrest
    have har' : allowRepeat = false := by simpa using har
    refine ⟨rfl, rfl, ?_, fun _ => ⟨har', hgt⟩, ?_, ?_⟩ <;> (intro hee; cases hee)
  split at h
  · rename_i hc
    obtain ⟨har, hgt⟩ := hc
    simp only [Option.some.injEq, Prod.mk.injEq] at h
    obtain ⟨hs, he, hrest⟩ := h
    subst hs; subst he; subst hrest
    have har' : allowRepeat = false := by simpa using har
    refine ⟨rfl, rfl, ?_, ?_, fun _ => ⟨har', hgt⟩, ?_⟩ <;> (intro hee; cases hee)
  split at h
  · rename_i hc
    obtain ⟨har, hgt⟩ := hc
    simp only [Option.some.injEq, Prod.mk.injEq] at h
    obtain ⟨hs, he, hrest⟩ := h
    subst hs; subst he; subst hrest
    have har' : allowRepeat = false := by simpa using har
    refine ⟨rfl, rfl, ?_, ?_, ?_, fun _ => ⟨har', hgt⟩⟩ <;> (intro hee; cases hee)
  cases heq1 : fill allowRepeat (g.lowerLetters ++ U)
      draws.length (length - numDigits - numSymbols).toNat [] draws with
  | none => rw [heq1] at h; simp at h
  | some p1 =>
    obtain ⟨r1, d1⟩ := p1
    rw [heq1] at h
    dsimp only at h
    cases heq2 : fill allowRepeat g.digits d1.length numDigits.toNat r1 d1 with
    | none => rw [heq2] at h; simp at h
    | some p2 =>
      obtain ⟨r2, d2⟩ := p2
      rw [heq2] at h
      dsimp only at h
      cases heq3 : fill allowRepeat g.symbols d2.length numSymbols.toNat r2 d2 with
      | none => rw [heq3] at h; simp at h
      | some p3 =>
        obtain ⟨r3, d3⟩ := p3
        rw [heq3] at h
        simp at h

theorem randomInsert_nil (val : Char) (draws : List Nat) :
    randomInsert [] val draws = some ([val], draws) := by
  simp [randomInsert]

theorem randomInsert_cons_zero {s : List Char} (hs : s ≠ []) (val : Char)
    (rest : List Nat) : randomInsert s val (0 :: rest) = some (val :: s, rest) := by
  simp [randomInsert, randInt, hs]

theorem fill_step (ar : Bool) (a : List Char) (fuel n : Nat)
    (result : List Char) (d : Nat) (rest : List Nat)
    (hcond : ¬(¬ar = true ∧ a.getD (d % a.length) 'a' ∈ result)) :
    fill ar a (fuel + 1) (n + 1) result (d :: rest) =
      (match randomInsert result (a.getD (d % a.length) 'a') rest with
       | none => none
       | some (result', rest') => fill ar a fuel n result' rest') := by
  rw [fill]
  simp only [randomElement, randInt]
  rw [if_neg hcond]

/-- Pigeonhole freshness: a duplicate-free alphabet whose length exceeds the
number of its characters already used always offers an unused character. -/
theorem exists_fresh {a result : List Char} (hnodup : a.Nodup)
    (hcount : (result.filter (· ∈ a)).length < a.length) :
    ∃ c ∈ a, c ∉ result := by
  by_contra hall
  push_neg at hall
  have hsub : a.toFinset ⊆ (result.filter (· ∈ a)).toFinset := by
    intro c hc
    rw [List.mem_toFinset] at hc ⊢
    exact List.mem_filter.mpr ⟨hall c hc, by simp [hc]⟩
  have h1 : a.toFinset.card = a.length := List.toFinset_card_of_nodup hnodup
  have h2 : (result.filter (· ∈ a)).toFinset.card ≤
      (result.filter (· ∈ a)).length := List.toFinset_card_le _
  have := Finset.card_le_card hsub
  omega

/-- With repeats allowed, a draw list that always picks index 0 and inserts
at position 0 completes any fill phase, for any fuel of at least `n`. -/
theorem fill_total {a : List Char} (_ha : a ≠ []) :
    ∀ (n : Nat) (result : List Char),
      ∃ (draws : List Nat) (r : List Char),
        n ≤ draws.length ∧
        ∀ (extra : List Nat) (fuel : Nat), n ≤ fuel →
          fill true a fuel n result (draws ++ extra) = some (r, extra) := by
  intro n
  induction n with
  | zero =>
    intro result
    exact ⟨[], result, Nat.le_refl _, fun extra fuel _ => by simp [fill]⟩
  | succ n ih =>
    intro result
    by_cases hres : result = []
    · subst hres
      obtain ⟨draws', r, hlen, hrun⟩ := ih [a.getD (0 % a.length) 'a']
      refine ⟨0 :: draws', r, by simp; omega, ?_⟩
      intro extra fuel hfuel
      cases fuel with
      | zero => omega
      | succ fuel =>
        rw [List.cons_append, fill_step true a fuel n [] 0 (draws' ++ extra)
          (by simp)]
        rw [randomInsert_nil]
        exact hrun extra fuel (Nat.le_of_succ_le_succ hfuel)
    · obtain ⟨draws', r, hlen, hrun⟩ := ih (a.getD (0 % a.length) 'a' :: result)
      refine ⟨0 :: 0 :: draws', r, by simp; omega, ?_⟩
      intro extra fuel hfuel
      cases fuel with
      | zero => omega
      | succ fuel =>
        rw [List.cons_append, List.cons_append,
          fill_step true a fuel n result 0 (0 :: (draws' ++ extra)) (by simp)]
        rw [randomInsert_cons_zero hres]
        exact hrun extra fuel (Nat.le_of_succ_le_succ hfuel)

/-- When the duplicate-free alphabet `a` has enough characters left relative
to the result built so far, some draw list completes the phase: at each
iteration a fresh character exists, and drawing its index then inserting at
position 0 makes progress.  Works for either repeat mode. -/
theorem fill_success (ar : Bool) {a : List Char} (hnodup : a.Nodup) :
    ∀ (n : Nat) (result : List Char), result.Nodup →
      n + (result.filter (· ∈ a)).length ≤ a.length →
      ∃ (draws : List Nat) (r : List Char),
        n ≤ draws.length ∧ r.Nodup ∧
        (∀ x ∈ r, x ∈ result ∨ x ∈ a) ∧
        ∀ (extra : List Nat) (fuel : Nat), n ≤ fuel →
          fill ar a fuel n result (draws ++ extra) = some (r, extra) := by
  intro n
  induction n with
  | zero =>
    intro result hres _
    exact ⟨[], result, Nat.le_refl _, hres, fun x hx => Or.inl hx,
      fun extra fuel _ => by simp [fill]⟩
  | succ n ih =>
    intro result hres hcount
    obtain ⟨c, hca, hcfresh⟩ := @exists_fresh a result hnodup (by omega)
    obtain ⟨i, hi⟩ := List.mem_iff_get.mp hca
    have hmod : i.val % a.length = i.val := Nat.mod_eq_of_lt i.isLt
    have hch : a.getD (i.val % a.length) 'a' = c := by
      rw [hmod, List.getD_eq_getElem?_getD, List.getElem?_eq_getElem i.isLt]
      simpa using hi
    have hres' : (c :: result).Nodup := List.nodup_cons.mpr ⟨hcfresh, hres⟩
    have hcount' : n + ((c :: result).filter (· ∈ a)).length ≤ a.length := by
      have hfc : (c :: result).filter (· ∈ a) = c :: result.filter (· ∈ a) := by
        simp [List.filter_cons, hca]
      rw [hfc]
      simp only [List.length_cons]
      omega
    obtain ⟨draws', r, hlen, hrnodup, hrmem, hrun⟩ := ih (c :: result) hres' hcount'
    have hcond : ¬(¬ar = true ∧ a.getD (i.val % a.length) 'a' ∈ result) := by
      rw [hch]; exact fun hc => hcfresh hc.2
    have hmem : ∀ x ∈ r, x ∈ result ∨ x ∈ a := by
      intro x hx
      rcases hrmem x hx with hx' | hx'
      · rcases List.mem_cons.mp hx' with rfl | hx''
        · exact Or.inr hca
        · exact Or.inl hx''
      · exact Or.inr hx'
    by_cases hresnil : result = []
    · subst hresnil
      refine ⟨i.val :: draws', r, by simp; omega, hrnodup, hmem, ?_⟩
      intro extra fuel hfuel
      cases fuel with
      | zero => omega
      | succ fuel =>
        rw [List.cons_append, fill_step ar a fuel n [] i.val (draws' ++ extra)
          hcond]
        rw [hch, randomInsert_nil]
        exact hrun extra fuel (Nat.le_of_succ_le_succ hfuel)
    · refine ⟨i.val :: 0 :: draws', r, by simp; omega, hrnodup, hmem, ?_⟩
      intro extra fuel hfuel
      cases fuel with
      | zero => omega
      | succ fuel =>
        rw [List.cons_append, List.cons_append,
          fill_step ar a fuel n result i.val (0 :: (draws' ++ extra)) hcond]
        rw [hch, randomInsert_cons_zero hresnil]
        exact hrun extra fuel (Nat.le_of_succ_le_succ hfuel)

theorem generate_exceeds_intro (g : StatefulGenerator)
    {length numDigits numSymbols : Int} (includeUpper allowRepeat : Bool)
    (draws : List Nat) (hgt : numDigits + numSymbols > length) :
    g.generate length numDigits numSymbols includeUpper allowRepeat draws =
      some ([], some .exceedsTotalLength, draws) := by
  unfold StatefulGenerator.generate
  dsimp only
  rw [if_pos (by omega)]

theorem generate_digits_intro (g : StatefulGenerator)
    {length numDigits numSymbols : Int} (includeUpper : Bool) (draws : List Nat)
    (h0 : numDigits + numSymbols ≤ length)
    (h1 : length - numDigits - numSymbols ≤
      ((g.lowerLetters ++ if includeUpper then g.upperLetters else []).length : Int))
    (h2 : numDigits > (g.digits.length : Int)) :
    g.generate length numDigits numSymbols includeUpper false draws =
      some ([], some .digitsExceedsAvailable, draws) := by
  unfold StatefulGenerator.generate
  dsimp only
  rw [if_neg (by omega)]
  rw [if_neg (by rintro ⟨-, hgt⟩; omega)]
  rw [if_pos ⟨by simp, h2⟩]

theorem generate_ok_intro (g : StatefulGenerator)
    {length numDigits numSymbols : Int} {includeUpper allowRepeat : Bool}
    {draws d1 d2 d3 : List Nat} {r1 r2 r3 : List Char}
    (h0 : 0 ≤ length - numDigits - numSymbols)
    (havail : allowRepeat = false →
      length - numDigits - numSymbols ≤
        ((g.lowerLetters ++ if includeUpper then g.upperLetters else []).length : Int) ∧
      numDigits ≤ (g.digits.length : Int) ∧ numSymbols ≤ (g.symbols.length : Int))
    (f1 : fill allowRepeat
      (g.lowerLetters ++ if includeUpper then g.upperLetters else [])
      draws.length (length - numDigits - numSymbols).toNat [] draws = some (r1, d1))
    (f2 : fill allowRepeat g.digits d1.length numDigits.toNat r1 d1 = some (r2, d2))
    (f3 : fill allowRepeat g.symbols d2.length numSymbols.toNat r2 d2 = some (r3, d3)) :
    g.generate length numDigits numSymbols includeUpper allowRepeat draws =
      some (r3, none, d3) := by
  unfold StatefulGenerator.generate
  dsimp only
  rw [if_neg (by omega)]
  rw [if_neg (fun hc => by
    obtain ⟨har, hgt⟩ := hc
    have := (havail (by simpa using har)).1
    omega)]
  rw [if_neg (fun hc => by
    obtain ⟨har, hgt⟩ := hc
    have := (havail (by simpa using har)).2.1
    omega)]
  rw [if_neg (fun hc => by
    obtain ⟨har, hgt⟩ := hc
    have := (havail (by simpa using har)).2.2
    omega)]
  rw [f1]
  dsimp only
  rw [f2]
  dsimp only
  rw [f3]

theorem generate_no_error (g : StatefulGenerator)
    {length numDigits numSymbols : Int} {includeUpper allowRepeat : Bool}
    (hsum : numDigits + numSymbols ≤ length)
    (havail : allowRepeat = false →
      length - numDigits - numSymbols ≤
        ((g.lowerLetters ++ if includeUpper then g.upperLetters else []).length : Int) ∧
      numDigits ≤ (g.digits.length : Int) ∧ numSymbols ≤ (g.symbols.length : Int))
    {draws rest : List Nat} {s : List Char} {e : GenErr}
    (h : g.generate length numDigits numSymbols includeUpper allowRepeat draws =
      some (s, some e, rest)) : False := by
  obtain ⟨-, -, c1, c2, c3, c4⟩ := generate_error_elim h
  cases e with
  | exceedsTotalLength => exact absurd (c1 rfl) (by omega)
  | lettersExceedsAvailable =>
    obtain ⟨har, hgt⟩ := c2 rfl
    have := (havail har).1
    omega
  | digitsExceedsAvailable =>
    obtain ⟨har, hgt⟩ := c3 rfl
    have := (havail har).2.1
    omega
  | symbolsExceedsAvailable =>
    obtain ⟨har, hgt⟩ := c4 rfl
    have := (havail har).2.2
    omega

/-- With repeats disallowed, duplicate-free pairwise-disjoint alphabets and
the validation bounds guarantee some draw sequence completes all three
phases. -/
theorem generate_success_noRepeat (g : StatefulGenerator)
    {length numDigits numSymbols : Int} {includeUpper : Bool}
    (hL : (g.lowerLetters ++ if includeUpper then g.upperLetters else []).Nodup)
    (hD : g.digits.Nodup) (hS : g.symbols.Nodup)
    (hLD : ∀ c ∈ g.lowerLetters ++ if includeUpper then g.upperLetters else [],
      c ∉ g.digits)
    (hLS : ∀ c ∈ g.lowerLetters ++ if includeUpper then g.upperLetters else [],
      c ∉ g.symbols)
    (hDS : ∀ c ∈ g.digits, c ∉ g.symbols)
    (h0 : 0 ≤ length - numDigits - numSymbols)
    (h1 : length - numDigits - numSymbols ≤
      ((g.lowerLetters ++ if includeUpper then g.upperLetters else []).length : Int))
    (h2 : numDigits ≤ (g.digits.length : Int))
    (h3 : numSymbols ≤ (g.symbols.length : Int)) :
    ∃ draws r, g.generate length numDigits numSymbols includeUpper false draws =
      some (r, none, []) := by
  obtain ⟨ds1, r1, hlen1, hnd1, hmem1, hrun1⟩ :=
    fill_success false hL (length - numDigits - numSymbols).toNat []
      List.nodup_nil (by simp only [List.filter_nil, List.length_nil]; omega)
  have hmemL : ∀ x ∈ r1,
      x ∈ g.lowerLetters ++ if includeUpper then g.upperLetters else [] :=
    fun x hx => (hmem1 x hx).resolve_left (List.not_mem_nil x)
  have hcount2 : numDigits.toNat + (r1.filter (· ∈ g.digits)).length ≤
      g.digits.length := by
    have hfil : r1.filter (· ∈ g.digits) = [] := by
      rw [List.filter_eq_nil_iff]
      intro x hx
      simp only [decide_eq_true_eq]
      exact hLD x (hmemL x hx)
    rw [hfil]
    simp only [List.length_nil]
    omega
  obtain ⟨ds2, r2, hlen2, hnd2, hmem2, hrun2⟩ :=
    fill_success false hD numDigits.toNat r1 hnd1 hcount2
  have hcount3 : numSymbols.toNat + (r2.filter (· ∈ g.symbols)).length ≤
      g.symbols.length := by
    have hfil : r2.filter (· ∈ g.symbols) = [] := by
      rw [List.filter_eq_nil_iff]
      intro x hx
      simp only [decide_eq_true_eq]
      rcases hmem2 x hx with hx' | hx'
      · exact hLS x (hmemL x hx')
      · exact hDS x hx'
    rw [hfil]
    simp only [List.length_nil]
    omega
  obtain ⟨ds3, r3, hlen3, hnd3, hmem3, hrun3⟩ :=
    fill_success false hS numSymbols.toNat r2 hnd2 hcount3
  refine ⟨ds1 ++ (ds2 ++ ds3), r3, ?_⟩
  have f1 := hrun1 (ds2 ++ ds3) (ds1 ++ (ds2 ++ ds3)).length
    (by simp only [List.length_append]; omega)
  have f2 := hrun2 ds3 (ds2 ++ ds3).length
    (by simp only [List.length_append]; omega)
  have f3 : fill false g.symbols ds3.length numSymbols.toNat r2 ds3 =
      some (r3, []) := by
    have := hrun3 [] ds3.length (by omega)
    simpa using this
  exact generate_ok_intro g h0 (fun _ => ⟨h1, h2, h3⟩) f1 f2 f3

/-- With repeats allowed, nonempty alphabets guarantee some draw sequence
completes all three phases (no availability bounds needed). -/
theorem generate_success_repeat (g : StatefulGenerator)
    {length numDigits numSymbols : Int} {includeUpper : Bool}
    (hl : g.lowerLetters ++ (if includeUpper then g.upperLetters else []) ≠ [])
    (hd : g.digits ≠ []) (hs : g.symbols ≠ [])
    (h0 : 0 ≤ length - numDigits - numSymbols) :
    ∃ draws r, g.generate length numDigits numSymbols includeUpper true draws =
      some (r, none, []) := by
  obtain ⟨ds1, r1, hlen1, hrun1⟩ :=
    fill_total hl (length - numDigits - numSymbols).toNat []
  obtain ⟨ds2, r2, hlen2, hrun2⟩ := fill_total hd numDigits.toNat r1
  obtain ⟨ds3, r3, hlen3, hrun3⟩ := fill_total hs numSymbols.toNat r2
  refine ⟨ds1 ++ (ds2 ++ ds3), r3, ?_⟩
  have f1 := hrun1 (ds2 ++ ds3) (ds1 ++ (ds2 ++ ds3)).length
    (by simp only [List.length_append]; omega)
  have f2 := hrun2 ds3 (ds2 ++ ds3).length
    (by simp only [List.length_append]; omega)
  have f3 : fill true g.symbols ds3.length numSymbols.toNat r2 ds3 =
      some (r3, []) := by
    have := hrun3 [] ds3.length (by omega)
    simpa using this
  exact generate_ok_intro g h0 (fun hf => nomatch hf) f1 f2 f3

/-! ### Relating the wrapping-arithmetic model to the exact-arithmetic one -/

theorem wrap64_chain (x c : Int) : wrap64 (wrap64 x - c) = wrap64 (x - c) := by
  unfold wrap64
  omega

theorem wrap64_eq_self {x : Int} (h1 : -(2 ^ 63) ≤ x) (h2 : x < 2 ^ 63) :
    wrap64 x = x := by
  unfold wrap64
  omega

/-- `generate64` coincides with exact-arithmetic `generate` at the shifted
length that makes the exact `chars` equal the wrapped one; `length` enters
the body only through `chars`, so nothing else changes. -/
theorem generate64_shift (g : StatefulGenerator)
    (length numDigits numSymbols : Int) (includeUpper allowRepeat : Bool)
    (draws : List Nat) :
    g.generate64 length numDigits numSymbols includeUpper allowRepeat draws =
      g.generate (wrap64 (wrap64 (length - numDigits) - numSymbols) +
          numDigits + numSymbols) numDigits numSymbols includeUpper allowRepeat
        draws := by
  unfold StatefulGenerator.generate64 StatefulGenerator.generate
  dsimp only
  rw [show wrap64 (wrap64 (length - numDigits) - numSymbols) + numDigits +
      numSymbols - numDigits - numSymbols =
      wrap64 (wrap64 (length - numDigits) - numSymbols) from by ring]

/-- Whenever the chars subtraction does not overflow int64, the wrapping and
the exact models agree. -/
theorem generate64_eq_generate (g : StatefulGenerator)
    {length numDigits numSymbols : Int} (includeUpper allowRepeat : Bool)
    (draws : List Nat) (h1 : -(2 ^ 63) ≤ length - numDigits - numSymbols)
    (h2 : length - numDigits - numSymbols < 2 ^ 63) :
    g.generate64 length numDigits numSymbols includeUpper allowRepeat draws =
      g.generate length numDigits numSymbols includeUpper allowRepeat draws := by
  rw [generate64_shift, wrap64_chain, wrap64_eq_self h1 h2]
  rw [show length - numDigits - numSymbols + numDigits + numSymbols = length
    from by ring]

/-! ### Claims -/

/-- C2: for every call to `Generate` with `allowRepeat = false` that returns a
nil error, the returned string contains no character value more than once. -/
theorem generate_no_repeat_nodup (g : StatefulGenerator)
    (length numDigits numSymbols : Int) (includeUpper : Bool)
    (draws rest : List Nat) (s : List Char)
    (h : g.generate length numDigits numSymbols includeUpper false draws =
      some (s, none, rest)) : s.Nodup := by
  obtain ⟨r1, d1, r2, d2, heq1, heq2, heq3⟩ := generate_ok_fills h
  exact fill_nodup heq3 (fill_nodup heq2 (fill_nodup heq1 List.nodup_nil))

/-- C2 witness: a concrete no-repeat call produces a duplicate-free string. -/
theorem generate_no_repeat_nodup_witness :
    (['~', '0', 'a'] : List Char).Nodup :=
  generate_no_repeat_nodup (newStatefulGenerator none) 3 1 1 false
    [0, 0, 0, 0, 0, 1, 2, 3, 4, 5] [1, 2, 3, 4, 5] ['~', '0', 'a'] (by decide)

theorem containsLower_iff {p : List Char} :
    containsLower p = true ↔ ∃ c ∈ p, 'a' ≤ c ∧ c ≤ 'z' := by
  simp [containsLower, List.any_eq_true, Bool.and_eq_true, decide_eq_true_eq]

theorem containsUpper_iff {p : List Char} :
    containsUpper p = true ↔ ∃ c ∈ p, 'A' ≤ c ∧ c ≤ 'Z' := by
  simp [containsUpper, List.any_eq_true, Bool.and_eq_true, decide_eq_true_eq]

theorem containsDigit_iff {p : List Char} :
    containsDigit p = true ↔ ∃ c ∈ p, '0' ≤ c ∧ c ≤ '9' := by
  simp [containsDigit, List.any_eq_true, Bool.and_eq_true, decide_eq_true_eq]

theorem containsSymbol_iff {p : List Char} :
    containsSymbol p = true ↔ ∃ c ∈ p,
      ¬(('a' ≤ c ∧ c ≤ 'z') ∨ ('A' ≤ c ∧ c ≤ 'Z') ∨ ('0' ≤ c ∧ c ≤ '9')) := by
  unfold containsSymbol
  rw [List.any_eq_true]
  refine exists_congr fun c => and_congr_right fun _ => ?_
  rw [Bool.not_eq_true', ← Bool.not_eq_true]
  simp only [Bool.or_eq_true, Bool.and_eq_true, decide_eq_true_eq]
  rw [or_assoc]

theorem isLegalPassword_elim {p : List Char} {nl nu nd ns : Bool}
    (h : isLegalPassword p nl nu nd ns = true) :
    (nl = true → containsLower p = true) ∧
    (nu = true → containsUpper p = true) ∧
    (nd = true → containsDigit p = true) ∧
    (ns = true → containsSymbol p = true) := by
  unfold isLegalPassword at h
  split at h
  · cases h
  split at h
  · cases h
  split at h
  · cases h
  split at h
  · cases h
  rename_i h1 h2 h3 h4
  refine ⟨fun hc => ?_, fun hc => ?_, fun hc => ?_, fun hc => ?_⟩
  · subst hc; simpa using h1
  · subst hc; simpa using h2
  · subst hc; simpa using h3
  · subst hc; simpa using h4

/-- C4 counterexample: in Go's wrapping `int` arithmetic the stated iff
fails in both directions at representable inputs.  `Generate(0, -2^63, 0)`
has `numDigits + numSymbols ≤ length` yet the wrapped
`length - numDigits - numSymbols` is `-2^63 < 0`, so it returns
`ExceedsTotalLength`; conversely `Generate(-2, 2^63-1, 2^63-1, false, true)`
has `numDigits + numSymbols > length` yet the wrapped computation gives
`chars = 0` and no error is returned. -/
theorem generate64_exceedsTotalLength_counterexample :
    (¬((-(2 : Int) ^ 63) + 0 > 0) ∧
      Generate64 0 (-(2 ^ 63)) 0 true false [] =
        some ([], some .exceedsTotalLength, [])) ∧
    (((2 : Int) ^ 63 - 1) + (2 ^ 63 - 1) > -2 ∧
      Generate64 (-2) (2 ^ 63 - 1) (2 ^ 63 - 1) false true [] = none) := by
  decide

/-- C4 (amended): `Generate` returns the `ExceedsTotalLength` error if and
only if the program's `int` computation `length - numDigits - numSymbols`
(two wrapping 64-bit subtractions) is negative — a condition equivalent to
`numDigits + numSymbols > length` exactly when that difference lies in int64
range — and in that case the returned result string is empty. -/
theorem generate64_exceedsTotalLength_iff :
    ∀ (g : StatefulGenerator) (length numDigits numSymbols : Int)
      (includeUpper allowRepeat : Bool) (draws : List Nat),
      (wrap64 (wrap64 (length - numDigits) - numSymbols) < 0 →
        g.generate64 length numDigits numSymbols includeUpper allowRepeat draws =
          some ([], some .exceedsTotalLength, draws)) ∧
      (∀ s rest,
        g.generate64 length numDigits numSymbols includeUpper allowRepeat draws =
          some (s, some .exceedsTotalLength, rest) →
        wrap64 (wrap64 (length - numDigits) - numSymbols) < 0 ∧ s = []) ∧
      (-(2 ^ 63) ≤ length - numDigits - numSymbols →
        length - numDigits - numSymbols < 2 ^ 63 →
        (wrap64 (wrap64 (length - numDigits) - numSymbols) < 0 ↔
          numDigits + numSymbols > length)) := by
  intro g length numDigits numSymbols includeUpper allowRepeat draws
  refine ⟨fun hneg => ?_, fun s rest h => ?_, fun hlo hhi => ?_⟩
  · rw [generate64_shift]
    exact generate_exceeds_intro g includeUpper allowRepeat draws (by omega)
  · rw [generate64_shift] at h
    obtain ⟨hs, -, hcond, -, -, -⟩ := generate_error_elim h
    have := hcond rfl
    exact ⟨by omega, hs⟩
  · rw [wrap64_chain, wrap64_eq_self hlo hhi]
    omega

/-- C4 witness: `Generate(0, 1, 0, true, false)` returns `ExceedsTotalLength`
with an empty result, consuming nothing. -/
theorem generate64_exceedsTotalLength_iff_witness :
    (newStatefulGenerator none).generate64 0 1 0 true false [5, 6] =
      some ([], some .exceedsTotalLength, [5, 6]) :=
  (generate64_exceedsTotalLength_iff (newStatefulGenerator none) 0 1 0 true
    false [5, 6]).1 (by decide)

/-- C5: with repeats disallowed, when the total-length and letters checks
pass but `numDigits` exceeds the digit alphabet size, `Generate` fails with
`DigitsExceedsAvailable`; in particular `Generate(52, 11, 0, true, false)`
with default alphabets does. -/
theorem generate_digitsExceedsAvailable :
    (∀ (g : StatefulGenerator) (length numDigits numSymbols : Int)
       (includeUpper : Bool) (draws : List Nat),
       numDigits + numSymbols ≤ length →
       length - numDigits - numSymbols ≤
         ((g.lowerLetters ++ if includeUpper then g.upperLetters else []).length : Int) →
       numDigits > (g.digits.length : Int) →
       g.generate length numDigits numSymbols includeUpper false draws =
         some ([], some .digitsExceedsAvailable, draws)) ∧
    (∀ draws, Generate 52 11 0 true false draws =
      some ([], some .digitsExceedsAvailable, draws)) := by
  constructor
  · intro g length numDigits numSymbols includeUpper draws h0 h1 h2
    exact generate_digits_intro g includeUpper draws h0 h1 h2
  · intro draws
    exact generate_digits_intro (newStatefulGenerator none) true draws
      (by decide) (by decide) (by decide)

/-- C5 witness: the concrete call from the claim, on a concrete draw list. -/
theorem generate_digitsExceedsAvailable_witness :
    (newStatefulGenerator none).generate 52 11 0 true false [7] =
      some ([], some .digitsExceedsAvailable, [7]) :=
  generate_digitsExceedsAvailable.1 (newStatefulGenerator none) 52 11 0 true [7]
    (by decide) (by decide) (by decide)

/-- C8: generation is deterministic in the random byte stream: two generators
configured with identical alphabets and fed identical draw sequences produce
identical outputs for identical `Generate` arguments. -/
theorem generate_deterministic (g1 g2 : StatefulGenerator)
    (hl : g1.lowerLetters = g2.lowerLetters)
    (hu : g1.upperLetters = g2.upperLetters) (hd : g1.digits = g2.digits)
    (hs : g1.symbols = g2.symbols) (length numDigits numSymbols : Int)
    (includeUpper allowRepeat : Bool) (draws : List Nat) :
    g1.generate length numDigits numSymbols includeUpper allowRepeat draws =
      g2.generate length numDigits numSymbols includeUpper allowRepeat draws := by
  cases g1; cases g2
  dsimp only at hl hu hd hs
  subst hl; subst hu; subst hd; subst hs
  rfl

/-- C8 witness: the default generator and a field-for-field copy of it agree
on a concrete call. -/
theorem generate_deterministic_witness :
    (newStatefulGenerator none).generate 2 1 0 false true [0, 1, 2, 3] =
      (StatefulGenerator.mk LowerLetters UpperLetters Digits Symbols).generate
        2 1 0 false true [0, 1, 2, 3] :=
  generate_deterministic (newStatefulGenerator none)
    (StatefulGenerator.mk LowerLetters UpperLetters Digits Symbols)
    (by decide) (by decide) (by decide) (by decide) 2 1 0 false true [0, 1, 2, 3]

/-- C9: whenever `Generate` returns one of the four precondition errors, no
draws have been consumed from the random source (all validation happens
before the first random draw) and the result string is empty. -/
theorem generate_error_no_draws_consumed (g : StatefulGenerator)
    (length numDigits numSymbols : Int) (includeUpper allowRepeat : Bool)
    (draws rest : List Nat) (s : List Char) (e : GenErr)
    (h : g.generate length numDigits numSymbols includeUpper allowRepeat draws =
      some (s, some e, rest)) : rest = draws ∧ s = [] :=
  ⟨(generate_error_elim h).2.1, (generate_error_elim h).1⟩

/-- C9 witness: a concrete erroring call leaves its two-element draw list
untouched. -/
theorem generate_error_no_draws_consumed_witness :
    ([5, 6] : List Nat) = [5, 6] ∧ ([] : List Char) = [] :=
  generate_error_no_draws_consumed (newStatefulGenerator none) 0 1 0 true false
    [5, 6] [5, 6] [] .exceedsTotalLength (by decide)

/-- C3: every string returned by `GenerateWithPolicy` with a nil error
satisfies each requested flag: at least one lowercase character when
`needsLower`, one uppercase when `needsUpper`, one ASCII digit when
`needsDigit`, and one character outside `[A-Za-z0-9]` when `needsSymbol`
(the symbol check being independent of the configured symbol alphabet). -/
theorem generateWithPolicy_policy (g : StatefulGenerator) (fuel : Nat)
    (length numDigits numSymbols : Int)
    (includeUpper allowRepeat needsLower needsUpper needsDigit needsSymbol : Bool)
    (draws rest : List Nat) (s : List Char)
    (h : g.generateWithPolicy fuel length numDigits numSymbols includeUpper
      allowRepeat needsLower needsUpper needsDigit needsSymbol draws =
      some (s, none, rest)) :
    (needsLower = true → ∃ c ∈ s, 'a' ≤ c ∧ c ≤ 'z') ∧
    (needsUpper = true → ∃ c ∈ s, 'A' ≤ c ∧ c ≤ 'Z') ∧
    (needsDigit = true → ∃ c ∈ s, '0' ≤ c ∧ c ≤ '9') ∧
    (needsSymbol = true → ∃ c ∈ s,
      ¬(('a' ≤ c ∧ c ≤ 'z') ∨ ('A' ≤ c ∧ c ≤ 'Z') ∨ ('0' ≤ c ∧ c ≤ '9'))) := by
  induction fuel generalizing draws with
  | zero => simp [StatefulGenerator.generateWithPolicy] at h
  | succ fuel ih =>
    unfold StatefulGenerator.generateWithPolicy at h
    cases hg : g.generate length numDigits numSymbols includeUpper allowRepeat
        draws with
    | none => rw [hg] at h; simp at h
    | some p =>
      obtain ⟨res, err, rest'⟩ := p
      rw [hg] at h
      cases err with
      | some e => simp at h
      | none =>
        dsimp only at h
        split at h
        · rename_i hleg
          simp only [Option.some.injEq, Prod.mk.injEq] at h
          obtain ⟨hres, -, -⟩ := h
          subst hres
          obtain ⟨c1, c2, c3, c4⟩ := isLegalPassword_elim hleg
          exact ⟨fun hf => containsLower_iff.mp (c1 hf),
            fun hf => containsUpper_iff.mp (c2 hf),
            fun hf => containsDigit_iff.mp (c3 hf),
            fun hf => containsSymbol_iff.mp (c4 hf)⟩
        · exact ih rest' h

/-- C3 witness: a concrete policy call requiring a digit yields a string
containing a digit. -/
theorem generateWithPolicy_policy_witness :
    (false = true → ∃ c ∈ (['0'] : List Char), 'a' ≤ c ∧ c ≤ 'z') ∧
    (false = true → ∃ c ∈ (['0'] : List Char), 'A' ≤ c ∧ c ≤ 'Z') ∧
    (true = true → ∃ c ∈ (['0'] : List Char), '0' ≤ c ∧ c ≤ '9') ∧
    (false = true → ∃ c ∈ (['0'] : List Char),
      ¬(('a' ≤ c ∧ c ≤ 'z') ∨ ('A' ≤ c ∧ c ≤ 'Z') ∨ ('0' ≤ c ∧ c ≤ '9'))) :=
  generateWithPolicy_policy (newStatefulGenerator none) 3 1 1 0 false true
    false false true false [0] [] ['0'] (by decide)

/-- C1 counterexample: `Generate(2, -1, 0, false, true)` satisfies
`numDigits + numSymbols ≤ length` yet returns a nil error with a string of 3
characters, not `length = 2`. -/
theorem generate_exact_length_counterexample :
    (-1 : Int) + 0 ≤ 2 ∧
    Generate 2 (-1) 0 false true [0, 0, 0, 0, 0] =
      some (['a', 'a', 'a'], none, []) ∧
    ¬(((['a', 'a', 'a'] : List Char).length : Int) = 2) := by decide

/-- C1 (amended): additionally requiring `0 ≤ numDigits` and
`0 ≤ numSymbols`, every call to `Generate` with `numDigits + numSymbols ≤
length` (and the no-repeat availability preconditions when
`allowRepeat = false`) never returns an error, every completed run returns a
string of exactly `length` characters, and a completing draw sequence
exists. -/
theorem generate_exact_length (length numDigits numSymbols : Int)
    (includeUpper allowRepeat : Bool)
    (hd : 0 ≤ numDigits) (hsy : 0 ≤ numSymbols)
    (hsum : numDigits + numSymbols ≤ length)
    (havail : allowRepeat = false →
      length - numDigits - numSymbols ≤
        ((defaultGenerator.lowerLetters ++
          if includeUpper then defaultGenerator.upperLetters else []).length : Int) ∧
      numDigits ≤ (defaultGenerator.digits.length : Int) ∧
      numSymbols ≤ (defaultGenerator.symbols.length : Int)) :
    (∀ draws,
      Generate length numDigits numSymbols includeUpper allowRepeat draws = none ∨
      ∃ s rest,
        Generate length numDigits numSymbols includeUpper allowRepeat draws =
          some (s, none, rest) ∧ (s.length : Int) = length) ∧
    (∃ draws s,
      Generate length numDigits numSymbols includeUpper allowRepeat draws =
        some (s, none, []) ∧ (s.length : Int) = length) := by
  have hkey : ∀ draws (s : List Char) rest,
      defaultGenerator.generate length numDigits numSymbols includeUpper
        allowRepeat draws = some (s, none, rest) → (s.length : Int) = length := by
    intro draws s rest hg
    obtain ⟨r1, d1, r2, d2, f1, f2, f3⟩ := generate_ok_fills hg
    have l1 := fill_length f1
    have l2 := fill_length f2
    have l3 := fill_length f3
    simp only [List.length_nil] at l1
    omega
  constructor
  · intro draws
    cases hg : Generate length numDigits numSymbols includeUpper allowRepeat
        draws with
    | none => exact Or.inl rfl
    | some p =>
      obtain ⟨s, err, rest⟩ := p
      cases err with
      | some e => exact absurd hg (fun hh => generate_no_error defaultGenerator
          hsum havail hh)
      | none => exact Or.inr ⟨s, rest, rfl, hkey draws s rest hg⟩
  · cases har : allowRepeat with
    | true =>
      subst har
      obtain ⟨draws, r, hgen⟩ :=
        @generate_success_repeat defaultGenerator length numDigits numSymbols
          includeUpper (by cases includeUpper <;> decide) (by decide) (by decide)
          (by omega)
      exact ⟨draws, r, hgen, hkey draws r [] hgen⟩
    | false =>
      subst har
      obtain ⟨h1, h2, h3⟩ := havail rfl
      obtain ⟨draws, r, hgen⟩ :=
        @generate_success_noRepeat defaultGenerator length numDigits numSymbols
          includeUpper (by cases includeUpper <;> decide) (by decide) (by decide)
          (by cases includeUpper <;> decide) (by cases includeUpper <;> decide)
          (by decide) (by omega) h1 h2 h3
      exact ⟨draws, r, hgen, hkey draws r [] hgen⟩

/-- C1 witness: a concrete valid no-repeat call, with the shape disjunction
instantiated at a draw list. -/
theorem generate_exact_length_witness :
    (Generate 3 1 1 false false [0, 0, 0, 0, 0, 1, 2, 3, 4, 5] = none ∨
      ∃ s rest, Generate 3 1 1 false false [0, 0, 0, 0, 0, 1, 2, 3, 4, 5] =
        some (s, none, rest) ∧ (s.length : Int) = 3) ∧
    (∃ draws s, Generate 3 1 1 false false draws = some (s, none, []) ∧
      (s.length : Int) = 3) :=
  ⟨(generate_exact_length 3 1 1 false false (by decide) (by decide) (by decide)
      (by decide)).1 [0, 0, 0, 0, 0, 1, 2, 3, 4, 5],
    (generate_exact_length 3 1 1 false false (by decide) (by decide) (by decide)
      (by decide)).2⟩

/-- Negative-count behavior of the exact-arithmetic model, used below for the
wrapping model on the overflow-free region where the two coincide. -/
theorem generate_negative_counts_ideal (length numDigits numSymbols : Int)
    (includeUpper : Bool) (hneg : numDigits < 0 ∨ numSymbols < 0)
    (hsum : numDigits + numSymbols ≤ length) :
    (∀ draws,
      Generate length numDigits numSymbols includeUpper true draws = none ∨
      ∃ s rest,
        Generate length numDigits numSymbols includeUpper true draws =
          some (s, none, rest) ∧
        (s.length : Int) = length - min numDigits 0 - min numSymbols 0 ∧
        length < (s.length : Int)) ∧
    (∃ draws s,
      Generate length numDigits numSymbols includeUpper true draws =
        some (s, none, []) ∧
      (s.length : Int) = length - min numDigits 0 - min numSymbols 0) := by
  have hkey : ∀ draws (s : List Char) rest,
      defaultGenerator.generate length numDigits numSymbols includeUpper
        true draws = some (s, none, rest) →
      (s.length : Int) = length - min numDigits 0 - min numSymbols 0 ∧
        length < (s.length : Int) := by
    intro draws s rest hg
    obtain ⟨r1, d1, r2, d2, f1, f2, f3⟩ := generate_ok_fills hg
    have l1 := fill_length f1
    have l2 := fill_length f2
    have l3 := fill_length f3
    simp only [List.length_nil] at l1
    omega
  constructor
  · intro draws
    cases hg : Generate length numDigits numSymbols includeUpper true draws with
    | none => exact Or.inl rfl
    | some p =>
      obtain ⟨s, err, rest⟩ := p
      cases err with
      | some e => exact absurd hg (fun hh => generate_no_error defaultGenerator
          hsum (fun hf => Bool.noConfusion hf) hh)
      | none =>
        obtain ⟨hlen, hgt⟩ := hkey draws s rest hg
        exact Or.inr ⟨s, rest, rfl, hlen, hgt⟩
  · obtain ⟨draws, r, hgen⟩ :=
      @generate_success_repeat defaultGenerator length numDigits numSymbols
        includeUpper (by cases includeUpper <;> decide) (by decide) (by decide)
        (by omega)
    exact ⟨draws, r, hgen, (hkey draws r [] hgen).1⟩

/-- C10 counterexample: for `Generate(5, -1, 1, false, true)` (one negative
and one positive class count, far inside int64 range so wrapping is not in
play) the completed result has 6 characters, not
`length - numDigits - numSymbols = 5`. -/
theorem generate_negative_counts64_counterexample :
    ((-1 : Int) < 0 ∨ (1 : Int) < 0) ∧ (-1 : Int) + 1 ≤ 5 ∧
    Generate64 5 (-1) 1 false true [0, 0, 0, 0, 0, 0, 0, 0, 0, 0, 0, 0, 0, 0] =
      some (['~', 'a', 'a', 'a', 'a', 'a'], none, [0, 0, 0]) ∧
    ¬(((['~', 'a', 'a', 'a', 'a', 'a'] : List Char).length : Int) =
      5 - (-1) - 1) := by decide

/-- C10 (amended): negative class counts are not rejected at the public
interface: for int64-representable arguments with `numDigits < 0` or
`numSymbols < 0`, `numDigits + numSymbols ≤ length`, and
`length - numDigits - numSymbols < 2^63` (the `int` letters count does not
overflow), `Generate` with `allowRepeat = true` never errors and a completed
run has `length - min(numDigits,0) - min(numSymbols,0)` characters, strictly
greater than `length`; only the combined (wrapping) check
`length - numDigits - numSymbols < 0` is validated. -/
theorem generate_negative_counts64 (length numDigits numSymbols : Int)
    (includeUpper : Bool)
    (_hl1 : -(2 ^ 63) ≤ length) (_hl2 : length < 2 ^ 63)
    (_hd1 : -(2 ^ 63) ≤ numDigits) (_hd2 : numDigits < 2 ^ 63)
    (_hs1 : -(2 ^ 63) ≤ numSymbols) (_hs2 : numSymbols < 2 ^ 63)
    (hneg : numDigits < 0 ∨ numSymbols < 0)
    (hsum : numDigits + numSymbols ≤ length)
    (hnof : length - numDigits - numSymbols < 2 ^ 63) :
    (∀ draws,
      Generate64 length numDigits numSymbols includeUpper true draws = none ∨
      ∃ s rest,
        Generate64 length numDigits numSymbols includeUpper true draws =
          some (s, none, rest) ∧
        (s.length : Int) = length - min numDigits 0 - min numSymbols 0 ∧
        length < (s.length : Int)) ∧
    (∃ draws s,
      Generate64 length numDigits numSymbols includeUpper true draws =
        some (s, none, []) ∧
      (s.length : Int) = length - min numDigits 0 - min numSymbols 0) := by
  have heq : ∀ draws,
      Generate64 length numDigits numSymbols includeUpper true draws =
        Generate length numDigits numSymbols includeUpper true draws :=
    fun draws => generate64_eq_generate (newStatefulGenerator none) includeUpper
      true draws (by omega) hnof
  simp only [heq]
  exact generate_negative_counts_ideal length numDigits numSymbols includeUpper
    hneg hsum

/-- C10 witness: the shape disjunction instantiated at the concrete call
`Generate(5, -1, 1, false, true)` with a concrete draw list. -/
theorem generate_negative_counts64_witness :
    (Generate64 5 (-1) 1 false true [0, 0, 0, 0, 0, 0, 0, 0, 0, 0, 0, 0, 0, 0] =
        none ∨
      ∃ s rest,
        Generate64 5 (-1) 1 false true
            [0, 0, 0, 0, 0, 0, 0, 0, 0, 0, 0, 0, 0, 0] =
          some (s, none, rest) ∧
        (s.length : Int) = 5 - min (-1) 0 - min 1 0 ∧ 5 < (s.length : Int)) ∧
    (∃ draws s, Generate64 5 (-1) 1 false true draws = some (s, none, []) ∧
      (s.length : Int) = 5 - min (-1) 0 - min 1 0) :=
  ⟨(generate_negative_counts64 5 (-1) 1 false (by decide) (by decide)
      (by decide) (by decide) (by decide) (by decide) (by decide) (by decide)
      (by decide)).1 [0, 0, 0, 0, 0, 0, 0, 0, 0, 0, 0, 0, 0, 0],
    (generate_negative_counts64 5 (-1) 1 false (by decide) (by decide)
      (by decide) (by decide) (by decide) (by decide) (by decide) (by decide)
      (by decide)).2⟩

theorem fill_step_retry (ar : Bool) (a : List Char) (fuel n : Nat)
    (result : List Char) (d : Nat) (rest : List Nat)
    (hcond : ¬ar = true ∧ a.getD (d % a.length) 'a' ∈ result) :
    fill ar a (fuel + 1) (n + 1) result (d :: rest) =
      fill ar a fuel (n + 1) result rest := by
  rw [fill]
  simp only [randomElement, randInt]
  rw [if_pos hcond]

theorem aa_getD (d : Nat) :
    (['a', 'a'] : List Char).getD (d % (['a', 'a'] : List Char).length) 'a' = 'a' := by
  rcases Nat.mod_two_eq_zero_or_one d with h | h <;>
    simp only [List.length_cons, List.length_nil] <;> rw [h] <;> rfl

/-- On the two-character alphabet "aa" with repeats disallowed, once 'a' is
in the result every iteration retries forever: the loop never completes for
any fuel and any draws. -/
theorem aa_stuck : ∀ (fuel : Nat) (draws : List Nat) (n : Nat)
    (result : List Char), 'a' ∈ result →
    fill false ['a', 'a'] fuel (n + 1) result draws = none := by
  intro fuel
  induction fuel with
  | zero => intro draws n result _; simp [fill]
  | succ fuel ih =>
    intro draws n result hmem
    cases draws with
    | nil => simp [fill, randomElement, randInt]
    | cons d ds =>
      rw [fill_step_retry false ['a', 'a'] fuel n result d ds
        ⟨by simp, by rw [aa_getD d]; exact hmem⟩]
      exact ih ds n result hmem

/-- The full letters phase on alphabet "aa" with two characters requested and
repeats disallowed never completes: the first insertion succeeds, after
which `aa_stuck` applies. -/
theorem aa_start : ∀ (fuel : Nat) (draws : List Nat),
    fill false ['a', 'a'] fuel 2 [] draws = none := by
  intro fuel draws
  cases fuel with
  | zero => simp [fill]
  | succ fuel =>
    cases draws with
    | nil => simp [fill, randomElement, randInt]
    | cons d ds =>
      rw [fill_step false ['a', 'a'] fuel 1 [] d ds (by simp)]
      rw [aa_getD d, randomInsert_nil]
      exact aa_stuck fuel ds 0 ['a'] (by simp)

/-- C6 counterexample: a generator built from the custom lowercase override
"aa" (a repeated character) passes all validation for
`Generate(2, 0, 0, false, false)`, yet no draw sequence of any length makes
the letters retry loop terminate with a result. -/
theorem fill_loops_terminate_counterexample :
    ¬∃ (draws : List Nat) (r : List Char) (rest : List Nat),
      (newStatefulGenerator (some ⟨['a', 'a'], [], [], []⟩)).generate 2 0 0
        false false draws = some (r, none, rest) := by
  rintro ⟨draws, r, rest, h⟩
  obtain ⟨r1, d1, r2, d2, f1, f2, f3⟩ := generate_ok_fills h
  have hred : fill false
      ((newStatefulGenerator (some ⟨['a', 'a'], [], [], []⟩)).lowerLetters ++
        if false then
          (newStatefulGenerator (some ⟨['a', 'a'], [], [], []⟩)).upperLetters
        else []) draws.length ((2 : Int) - 0 - 0).toNat [] draws =
      fill false ['a', 'a'] draws.length 2 [] draws := rfl
  rw [hred, aa_start] at f1
  cases f1

/-- C6 (amended): the retry loops need not terminate for custom alphabets
with repeated characters (see the counterexample); for every generator whose
letter, digit and symbol alphabets are duplicate-free and pairwise disjoint
(the built-in defaults are), every `Generate` call with
`allowRepeat = false` that passes the validation checks admits a draw
sequence under which all three character-drawing loops terminate with a
completed result: at every iteration a fresh character remains available. -/
theorem fill_loops_terminate (g : StatefulGenerator)
    (length numDigits numSymbols : Int) (includeUpper : Bool)
    (hL : (g.lowerLetters ++ if includeUpper then g.upperLetters else []).Nodup)
    (hD : g.digits.Nodup) (hS : g.symbols.Nodup)
    (hLD : ∀ c ∈ g.lowerLetters ++ if includeUpper then g.upperLetters else [],
      c ∉ g.digits)
    (hLS : ∀ c ∈ g.lowerLetters ++ if includeUpper then g.upperLetters else [],
      c ∉ g.symbols)
    (hDS : ∀ c ∈ g.digits, c ∉ g.symbols)
    (h0 : 0 ≤ length - numDigits - numSymbols)
    (h1 : length - numDigits - numSymbols ≤
      ((g.lowerLetters ++ if includeUpper then g.upperLetters else []).length : Int))
    (h2 : numDigits ≤ (g.digits.length : Int))
    (h3 : numSymbols ≤ (g.symbols.length : Int)) :
    ∃ draws r rest,
      g.generate length numDigits numSymbols includeUpper false draws =
        some (r, none, rest) := by
  obtain ⟨draws, r, hgen⟩ :=
    generate_success_noRepeat g hL hD hS hLD hLS hDS h0 h1 h2 h3
  exact ⟨draws, r, [], hgen⟩

/-- C6 witness: the default generator with a concrete validated no-repeat
call. -/
theorem fill_loops_terminate_witness :
    ∃ draws r rest,
      (newStatefulGenerator none).generate 3 1 1 false false draws =
        some (r, none, rest) :=
  fill_loops_terminate (newStatefulGenerator none) 3 1 1 false (by decide)
    (by decide) (by decide) (by decide) (by decide) (by decide) (by decide)
    (by decide) (by decide) (by decide)

/-- C7 counterexample: the built-in symbols alphabet has 30 characters, not
the 32 stated. -/
theorem default_alphabets_counterexample :
    ¬(LowerLetters.length = 26 ∧ UpperLetters.length = 26 ∧
      Digits.length = 10 ∧ Symbols.length = 32) := by decide

/-- C7 (amended): the lowercase alphabet is 26 distinct characters in a–z,
the uppercase alphabet 26 distinct characters in A–Z, the digits alphabet 10
distinct characters in 0–9, and the symbols alphabet exactly 30 (not 32)
distinct characters outside `[A-Za-z0-9]`. -/
theorem default_alphabets :
    (LowerLetters.length = 26 ∧ LowerLetters.Nodup ∧
      ∀ c ∈ LowerLetters, 'a' ≤ c ∧ c ≤ 'z') ∧
    (UpperLetters.length = 26 ∧ UpperLetters.Nodup ∧
      ∀ c ∈ UpperLetters, 'A' ≤ c ∧ c ≤ 'Z') ∧
    (Digits.length = 10 ∧ Digits.Nodup ∧
      ∀ c ∈ Digits, '0' ≤ c ∧ c ≤ '9') ∧
    (Symbols.length = 30 ∧ Symbols.Nodup ∧
      ∀ c ∈ Symbols,
        ¬(('a' ≤ c ∧ c ≤ 'z') ∨ ('A' ≤ c ∧ c ≤ 'Z') ∨ ('0' ≤ c ∧ c ≤ '9'))) := by
  decide

end Password
